import Mathlib

/-
Verification development for the turbo-sheet core (src/simple.rs): a
file-backed, line-indexed tabular data accessor.  The Rust source is embedded
shallowly: the memory-mapped file is a `List Nat` of byte values, machine
integers (`i64`, `i32`, `usize`) are `Int`/`Nat` with the relevant casts made
explicit, and operations that can panic (out-of-bounds slice indexing) return
`Option`, with `none` modelling a panic.
-/

namespace TurboSheet

/-- Reinterpret an `i64` value as a `usize`, as Rust's `as usize` cast does:
take the low 64 bits of the two's-complement representation.  A negative
input therefore becomes a huge unsigned index. -/
def i64_as_usize (x : Int) : Nat := (Int.emod x (2 ^ 64)).toNat

/-- Reinterpret a `usize` value as an `i64`, as Rust's `as i64` cast does:
values below `2^63` are unchanged, larger ones wrap to negative. -/
def usize_as_i64 (n : Nat) : Int := if n < 2 ^ 63 then (n : Int) else (n : Int) - 2 ^ 64

/-- Embedding of `CellData` (src/simple.rs): one cell's textual content. -/
structure CellData where
  content : String
deriving DecidableEq, Repr

/-- Embedding of `RowData` (src/simple.rs): a row index plus its cells. -/
structure RowData where
  index : Int
  cells : List CellData
deriving DecidableEq, Repr

/-- Embedding of `SheetSession` (src/simple.rs).  The memory-mapped file is
the byte list `mmap`; `row_offsets` is the line index built at construction. -/
structure SheetSession where
  total_rows : Int
  total_cols : Int
  mmap : List Nat
  row_offsets : List Nat
deriving DecidableEq, Repr

/-- The newline scan of `new_from_file`: for every byte equal to 10 at
position `i` of the remaining input (absolute position `i0 + i`), record
`i0 + i + 1` as a row start. -/
def scanNewlines : List Nat → Nat → List Nat
  | [], _ => []
  | b :: rest, i =>
    if b = 10 then (i + 1) :: scanNewlines rest (i + 1) else scanNewlines rest (i + 1)

/-- Embedding of `byte_count_char` (src/simple.rs): count occurrences of a
byte in a slice, returned as `i64`. -/
def byte_count_char (slice : List Nat) (target : Nat) : Int :=
  usize_as_i64 (slice.filter (fun b => b = target)).length

/-- Embedding of `SheetSession::new_from_file` (src/simple.rs), starting after
the file has been opened and mapped successfully (the `File::open` / `Mmap::map`
error paths abort construction and are outside the session model).  `data` is
the mapped byte content.  Note `first_line_end` is at most `data.length`
(every recorded offset is a byte position plus one), so the slice
`&mmap[0..first_line_end]` cannot panic and is modelled by `List.take`. -/
def new_from_file (data : List Nat) : SheetSession :=
  let row_offsets := 0 :: scanNewlines data 0
  let total_rows := usize_as_i64 row_offsets.length
  let first_line_end := row_offsets.getD 1 data.length
  let first_line_slice := data.take first_line_end
  let total_cols := if 0 < total_rows then byte_count_char first_line_slice 44 + 1 else 0
  { total_rows := total_rows, total_cols := total_cols, mmap := data, row_offsets := row_offsets }

/-- UTF-8 continuation byte test: `0x80 ≤ b ≤ 0xBF`. -/
def isCont (b : Nat) : Bool := 128 ≤ b && b ≤ 191

/-- The Unicode replacement character U+FFFD emitted by lossy decoding. -/
def utf8Repl : Char := Char.ofNat 65533

/-- Valid second-byte ranges for a three-byte UTF-8 sequence (surrogates and
overlong encodings excluded, as in Rust's `core::str` validation). -/
def cont2ok (b1 b2 : Nat) : Bool :=
  if b1 = 224 then 160 ≤ b2 && b2 ≤ 191
  else if b1 = 237 then 128 ≤ b2 && b2 ≤ 159
  else isCont b2

/-- Valid second-byte ranges for a four-byte UTF-8 sequence. -/
def cont3ok (b1 b2 : Nat) : Bool :=
  if b1 = 240 then 144 ≤ b2 && b2 ≤ 191
  else if b1 = 244 then 128 ≤ b2 && b2 ≤ 143
  else isCont b2

/-- Fuel-driven UTF-8 lossy decoder implementing `String::from_utf8_lossy`:
each maximal well-formed sequence decodes to its scalar value, and each
maximal subpart of an ill-formed sequence is replaced by U+FFFD.  Every step
consumes at least one byte and one unit of fuel, so fuel equal to the input
length always suffices (when fuel reaches 0 the input is already empty). -/
def utf8LossyFuel : Nat → List Nat → List Char
  | 0, _ => []
  | _ + 1, [] => []
  | fuel + 1, b1 :: t1 =>
    if b1 ≤ 127 then Char.ofNat b1 :: utf8LossyFuel fuel t1
    else if 194 ≤ b1 && b1 ≤ 223 then
      match t1 with
      | [] => [utf8Repl]
      | b2 :: t2 =>
        if isCont b2 then
          Char.ofNat ((b1 - 192) * 64 + (b2 - 128)) :: utf8LossyFuel fuel t2
        else utf8Repl :: utf8LossyFuel fuel t1
    else if 224 ≤ b1 && b1 ≤ 239 then
      match t1 with
      | [] => [utf8Repl]
      | b2 :: t2 =>
        if cont2ok b1 b2 then
          match t2 with
          | [] => [utf8Repl]
          | b3 :: t3 =>
            if isCont b3 then
              Char.ofNat ((b1 - 224) * 4096 + (b2 - 128) * 64 + (b3 - 128)) :: utf8LossyFuel fuel t3
            else utf8Repl :: utf8LossyFuel fuel t2
        else utf8Repl :: utf8LossyFuel fuel t1
    else if 240 ≤ b1 && b1 ≤ 244 then
      match t1 with
      | [] => [utf8Repl]
      | b2 :: t2 =>
        if cont3ok b1 b2 then
          match t2 with
          | [] => [utf8Repl]
          | b3 :: t3 =>
            if isCont b3 then
              match t3 with
              | [] => [utf8Repl]
              | b4 :: t4 =>
                if isCont b4 then
                  Char.ofNat ((b1 - 240) * 262144 + (b2 - 128) * 4096 + (b3 - 128) * 64 + (b4 - 128)) ::
                    utf8LossyFuel fuel t4
                else utf8Repl :: utf8LossyFuel fuel t3
            else utf8Repl :: utf8LossyFuel fuel t2
        else utf8Repl :: utf8LossyFuel fuel t1
    else utf8Repl :: utf8LossyFuel fuel t1

/-- Embedding of `String::from_utf8_lossy` applied to a byte slice, yielding
the decoded character sequence. -/
def from_utf8_lossy (bytes : List Nat) : List Char := utf8LossyFuel bytes.length bytes

/-- One iteration's character in `number_to_col_name`:
`(b'A' + ((n % 26) as u8)) as char`, where `%` is Rust's truncated remainder,
the `as u8` cast takes the low 8 bits, and the addition wraps modulo 256
(release-build semantics; for `n ≥ 0` no wrapping occurs). -/
def colChar (n : Int) : Char :=
  Char.ofNat ((65 + (Int.emod (Int.tmod n 26) 256).toNat) % 256)

/-- Fuel-driven loop of `SheetSession::number_to_col_name` (src/simple.rs):
prepend `colChar n`, replace `n` by `n / 26 - 1` (truncated division), stop
when the new value is negative.  The loop strictly decreases a non-negative
`n`, and a negative `n` stops after one iteration, so fuel `n.toNat + 1`
always suffices (see `colNameFuel_congr`). -/
def colNameFuel : Nat → Int → List Char → List Char
  | 0, _, acc => acc
  | fuel + 1, n, acc =>
    let acc2 := colChar n :: acc
    let n2 := Int.tdiv n 26 - 1
    if n2 < 0 then acc2 else colNameFuel fuel n2 acc2

/-- Embedding of `SheetSession::number_to_col_name` (src/simple.rs). -/
def number_to_col_name (n : Int) : String := String.mk (colNameFuel (n.toNat + 1) n [])

/-- The cell-extraction loop of `get_grid_chunk` (src/simple.rs): for `c` in
`0..col_count`, take field `(col_start + c) as usize` of the split row if it
exists, else the empty string. -/
def cellsOf (all_cols : List (List Char)) (col_start col_count : Int) : List CellData :=
  (List.range col_count.toNat).map (fun c =>
    let target_col := i64_as_usize (col_start + (c : Int))
    { content := if target_col < all_cols.length then String.mk (all_cols.getD target_col []) else "" })

/-- The body of `get_grid_chunk`'s row loop (src/simple.rs) for one row index:
`none` models a panic (the `self.row_offsets[...]` index or the
`&self.mmap[start_byte..end_byte]` slice going out of bounds).  `getD _ 0 - 1`
is `saturating_sub(1)` on `usize`. -/
def gridRow (s : SheetSession) (idx col_start col_count : Int) : Option RowData :=
  match s.row_offsets.get? (i64_as_usize idx) with
  | none => none
  | some start_byte =>
    let u := i64_as_usize idx
    let end_byte :=
      if u + 1 < s.row_offsets.length then s.row_offsets.getD (u + 1) 0 - 1 else s.mmap.length
    if start_byte ≥ end_byte then some { index := idx, cells := [] }
    else if s.mmap.length < end_byte then none
    else
      let line_bytes := (s.mmap.drop start_byte).take (end_byte - start_byte)
      let all_cols := (from_utf8_lossy line_bytes).splitOn ','
      some { index := idx, cells := cellsOf all_cols col_start col_count }

/-- The row loop of `get_grid_chunk` (src/simple.rs): `fuel` remaining
iterations of `for r in 0..row_count`, `r` the current iteration number. -/
def gridLoopAux (s : SheetSession) (row_start col_start col_count : Int) :
    Nat → Nat → Option (List RowData)
  | 0, _ => some []
  | fuel + 1, r =>
    let idx := row_start + (r : Int)
    if s.total_rows ≤ idx then some []
    else
      match gridRow s idx col_start col_count with
      | none => none
      | some rd => Option.map (fun tail => rd :: tail) (gridLoopAux s row_start col_start col_count fuel (r + 1))

/-- Embedding of `SheetSession::get_grid_chunk` (src/simple.rs).  The `i32`
loop `for r in 0..row_count` runs `row_count.toNat` iterations. -/
def get_grid_chunk (s : SheetSession) (row_start row_count col_start col_count : Int) :
    Option (List RowData) :=
  gridLoopAux s row_start col_start col_count row_count.toNat 0

/-- The loop of `get_header_chunk` (src/simple.rs): `fuel` remaining
iterations of `for i in 0..col_count`, `i` the current iteration number. -/
def headerLoopAux (s : SheetSession) (col_start : Int) : Nat → Nat → List String
  | 0, _ => []
  | fuel + 1, i =>
    let idx := col_start + (i : Int)
    if s.total_cols ≤ idx then []
    else number_to_col_name idx :: headerLoopAux s col_start fuel (i + 1)

/-- Embedding of `SheetSession::get_header_chunk` (src/simple.rs). -/
def get_header_chunk (s : SheetSession) (col_start col_count : Int) : List String :=
  headerLoopAux s col_start col_count.toNat 0

/-- Modelled from the spec: byte range resolution for one row, in the words of
section 4.4 — `start_byte = LineIndex[row_idx]`. -/
def row_start_byte (s : SheetSession) (idx : Int) : Nat := s.row_offsets.getD idx.toNat 0

/-- Modelled from the spec: `end_byte = LineIndex[row_idx + 1] - 1` (dropping
the trailing line-feed) if a next entry exists, else `mapping.length()`. -/
def row_end_byte (s : SheetSession) (idx : Int) : Nat :=
  if idx.toNat + 1 < s.row_offsets.length then s.row_offsets.getD (idx.toNat + 1) 0 - 1
  else s.mmap.length

/-- Modelled from the spec (section 4.4): the `RowData` produced for one
in-range row — an empty cell list when `start_byte ≥ end_byte`, otherwise the
lossily decoded, comma-split, padded/truncated cell window. -/
def gridRowOf (s : SheetSession) (idx col_start col_count : Int) : RowData :=
  if row_start_byte s idx ≥ row_end_byte s idx then { index := idx, cells := [] }
  else
    { index := idx
      cells := cellsOf
        ((from_utf8_lossy ((s.mmap.drop (row_start_byte s idx)).take
            (row_end_byte s idx - row_start_byte s idx))).splitOn ',')
        col_start col_count }

/-- A query against a frozen session: one of the two read-only operations. -/
inductive Query where
  | grid (row_start row_count col_start col_count : Int)
  | header (col_start col_count : Int)

/-- The answer of a query. -/
inductive Answer where
  | rows (result : Option (List RowData))
  | names (result : List String)
deriving DecidableEq

/-- Execute one query against a session, returning the session the caller
holds afterwards together with the answer.  Both Rust methods take `&self`
(a shared reference) and the session's fields have no interior mutability, so
the session after the call is the session before it. -/
def runQuery (s : SheetSession) (q : Query) : SheetSession × Answer :=
  match q with
  | .grid rs rc cs cc => (s, .rows (get_grid_chunk s rs rc cs cc))
  | .header cs cc => (s, .names (get_header_chunk s cs cc))

/-- Execute a sequence of queries, threading the session state. -/
def runQueries : SheetSession → List Query → SheetSession
  | s, [] => s
  | s, q :: qs => runQueries (runQuery s q).1 qs

/-- The example file content `"a,b,c\n1,2,3\n4,5\n"` as bytes. -/
def exampleData : List Nat := [97, 44, 98, 44, 99, 10, 49, 44, 50, 44, 51, 10, 52, 44, 53, 10]

/-- A ragged file `"a\nb,c,d\n"`: its first row has one field, its second has
three. -/
def raggedData : List Nat := [97, 10, 98, 44, 99, 44, 100, 10]

/-- Modelled from the spec: bijective base-26 naming in the claim's own
words, repeatedly prepending the letter at code `'A' + (n mod 26)` and
setting `n` to `n / 26 - 1` until `n < 0`, phrased over natural numbers
(on `Nat`, the stop test `n / 26 - 1 < 0` becomes `n < 26`).  Fuel-driven
like the source loop; fuel `n + 1` always suffices. -/
def specColNameFuel : Nat → Nat → List Char → List Char
  | 0, _, acc => acc
  | fuel + 1, n, acc =>
    let acc2 := Char.ofNat (65 + n % 26) :: acc
    if n < 26 then acc2 else specColNameFuel fuel (n / 26 - 1) acc2

/-- Modelled from the spec: the bijective base-26 name of column `n`. -/
def specColName (n : Nat) : String := String.mk (specColNameFuel (n + 1) n [])




/-- Every position recorded by the newline scan is strictly greater than the
starting position and at most `start + length of the scanned input`. -/
theorem scanNewlines_mem_bounds :
    ∀ (data : List Nat) (i x : Nat), x ∈ scanNewlines data i → i < x ∧ x ≤ i + data.length := by
  intro data
  induction data with
  | nil => intro i x hx; simp [scanNewlines] at hx
  | cons b rest ih =>
    intro i x hx
    simp only [scanNewlines] at hx
    simp only [List.length_cons]
    by_cases hb : b = 10
    · simp only [hb, if_pos rfl] at hx
      rcases List.mem_cons.mp hx with h | h
      · omega
      · have := ih (i + 1) x h
        omega
    · rw [if_neg hb] at hx
      have := ih (i + 1) x hx
      omega

/-- The newline scan produces a strictly increasing sequence. -/
theorem scanNewlines_chain :
    ∀ (data : List Nat) (i : Nat), List.Chain' (· < ·) (scanNewlines data i) := by
  intro data
  induction data with
  | nil => intro i; simp [scanNewlines]
  | cons b rest ih =>
    intro i
    simp only [scanNewlines]
    by_cases hb : b = 10
    · rw [if_pos hb]
      refine List.chain'_cons'.mpr ⟨?_, ih (i + 1)⟩
      intro y hy
      have hmem : y ∈ scanNewlines rest (i + 1) := List.mem_of_mem_head? hy
      exact (scanNewlines_mem_bounds rest (i + 1) y hmem).1
    · rw [if_neg hb]; exact ih (i + 1)

/-- The newline scan records at most one position per scanned byte. -/
theorem scanNewlines_length_le :
    ∀ (data : List Nat) (i : Nat), (scanNewlines data i).length ≤ data.length := by
  intro data
  induction data with
  | nil => intro i; simp [scanNewlines]
  | cons b rest ih =>
    intro i
    simp only [scanNewlines, List.length_cons]
    by_cases hb : b = 10
    · rw [if_pos hb]; simpa using ih (i + 1)
    · rw [if_neg hb]; have := ih (i + 1); omega

/-- A line-feed byte at position `j` of the scanned input makes the scan
record `i + j + 1`. -/
theorem scanNewlines_mem_of_newline :
    ∀ (data : List Nat) (i j : Nat), data.get? j = some 10 → (i + j + 1) ∈ scanNewlines data i := by
  intro data
  induction data with
  | nil => intro i j h; simp at h
  | cons b rest ih =>
    intro i j h
    simp only [scanNewlines]
    match j with
    | 0 =>
      simp only [List.get?] at h
      have hb : b = 10 := by injection h
      rw [if_pos hb]
      simp
    | k + 1 =>
      simp only [List.get?] at h
      have hmem := ih (i + 1) k h
      have harith : i + (k + 1) + 1 = i + 1 + k + 1 := by omega
      by_cases hb : b = 10
      · rw [if_pos hb]; rw [harith]; exact List.mem_cons_of_mem _ hmem
      · rw [if_neg hb]; rw [harith]; exact hmem

/-- The session's row-offset list is exactly `0` followed by the newline
scan. -/
theorem new_row_offsets (data : List Nat) :
    (new_from_file data).row_offsets = 0 :: scanNewlines data 0 := rfl

/-- The session's mapping is the file content. -/
theorem new_mmap (data : List Nat) : (new_from_file data).mmap = data := rfl

/-- Under a realistic size bound the `as i64` cast of the offset count does
not wrap: `total_rows` equals the length of the line index. -/
theorem total_rows_eq (data : List Nat) (hlen : data.length ≤ 2 ^ 62) :
    (new_from_file data).total_rows = ((new_from_file data).row_offsets.length : Int) := by
  have hscan := scanNewlines_length_le data 0
  have hlt : (0 :: scanNewlines data 0).length < 2 ^ 63 := by
    simp only [List.length_cons]; omega
  show usize_as_i64 (0 :: scanNewlines data 0).length = _
  rw [usize_as_i64, if_pos hlt]
  rfl

/-- The line index is never empty and is at most one longer than the file. -/
theorem row_offsets_length_bounds (data : List Nat) :
    1 ≤ (new_from_file data).row_offsets.length ∧
      (new_from_file data).row_offsets.length ≤ data.length + 1 := by
  have hscan := scanNewlines_length_le data 0
  rw [new_row_offsets]
  simp only [List.length_cons]
  omega

/-- Every entry of the line index is at most the file length. -/
theorem row_offsets_entry_le (data : List Nat) (j : Nat) :
    (new_from_file data).row_offsets.getD j 0 ≤ data.length := by
  rw [new_row_offsets, List.getD]
  cases hj : (0 :: scanNewlines data 0).get? j with
  | none => simp
  | some x =>
    have hx : x ∈ 0 :: scanNewlines data 0 := List.get?_mem hj
    rcases List.mem_cons.mp hx with h | h
    · simp [hj, h]
    · have := scanNewlines_mem_bounds data 0 x h
      simp only [hj, Option.getD_some]
      omega

/-- Every entry of the line index past the first is at least `1`. -/
theorem row_offsets_entry_pos (data : List Nat) (j : Nat) (hj : 1 ≤ j)
    (hlt : j < (new_from_file data).row_offsets.length) :
    1 ≤ (new_from_file data).row_offsets.getD j 0 := by
  rw [new_row_offsets] at hlt ⊢
  rw [List.getD]
  match j, hj with
  | k + 1, _ =>
    simp only [List.length_cons] at hlt
    have hk : k < (scanNewlines data 0).length := by omega
    cases hg : (scanNewlines data 0).get? k with
    | none => rw [List.get?_eq_none] at hg; omega
    | some x =>
      have hx : x ∈ scanNewlines data 0 := List.get?_mem hg
      have := (scanNewlines_mem_bounds data 0 x hx).1
      simp only [List.get?_cons_succ, hg, Option.getD_some]
      omega



/-- For an in-range row index the row-loop body cannot panic and computes
exactly the spec-described `RowData`: the offset lookup is in bounds, the
saturating subtraction is exact, and the byte slice stays inside the
mapping. -/
theorem gridRow_eq_of_lt (data : List Nat) (hlen : data.length ≤ 2 ^ 62) (idx cs cc : Int)
    (h0 : 0 ≤ idx) (hlt : idx < (new_from_file data).total_rows) :
    gridRow (new_from_file data) idx cs cc = some (gridRowOf (new_from_file data) idx cs cc) := by
  have hrows := total_rows_eq data hlen
  have hbounds := row_offsets_length_bounds data
  rw [hrows] at hlt
  have hu : idx.toNat < (new_from_file data).row_offsets.length := by omega
  have hcast : i64_as_usize idx = idx.toNat := by
    have h64 : idx < 2 ^ 64 := by omega
    have hm : Int.emod idx (2 ^ 64) = idx := Int.emod_eq_of_lt h0 h64
    rw [i64_as_usize, hm]
  have hget : (new_from_file data).row_offsets.get? idx.toNat =
      some ((new_from_file data).row_offsets.getD idx.toNat 0) := by
    simp only [List.getD]
    rw [List.get?_eq_get hu]
    rfl
  have hmlen : (new_from_file data).mmap.length = data.length := rfl
  have hend : (if idx.toNat + 1 < (new_from_file data).row_offsets.length then
      (new_from_file data).row_offsets.getD (idx.toNat + 1) 0 - 1
      else (new_from_file data).mmap.length) ≤ data.length := by
    split_ifs with hnext
    · have := row_offsets_entry_le data (idx.toNat + 1)
      omega
    · omega
  simp only [gridRow, gridRowOf, row_start_byte, row_end_byte, hcast, hget]
  set e := (if idx.toNat + 1 < (new_from_file data).row_offsets.length then
      (new_from_file data).row_offsets.getD (idx.toNat + 1) 0 - 1
      else (new_from_file data).mmap.length) with he
  split_ifs with hcmp hbad
  · rfl
  · rw [hmlen] at hbad; omega
  · rfl

/-- The row loop of `get_grid_chunk`, started at iteration `r`, never panics
for a non-negative `row_start` and returns exactly the window of
spec-described rows truncated at `total_rows`. -/
theorem gridLoopAux_spec (data : List Nat) (hlen : data.length ≤ 2 ^ 62) (rs cs cc : Int)
    (h0 : 0 ≤ rs) :
    ∀ (n r : Nat), gridLoopAux (new_from_file data) rs cs cc n r =
      some ((List.range (min n (((new_from_file data).total_rows - (rs + (r : Int))).toNat))).map
        (fun k : Nat => gridRowOf (new_from_file data) (rs + (r : Int) + (k : Int)) cs cc)) := by
  intro n
  induction n with
  | zero => intro r; simp [gridLoopAux]
  | succ m ih =>
    intro r
    simp only [gridLoopAux]
    by_cases hstop : (new_from_file data).total_rows ≤ rs + (r : Int)
    · rw [if_pos hstop]
      have hz : (((new_from_file data).total_rows - (rs + (r : Int)))).toNat = 0 := by omega
      rw [hz]
      simp
    · rw [if_neg hstop]
      push_neg at hstop
      have hidx0 : 0 ≤ rs + (r : Int) := by positivity
      rw [gridRow_eq_of_lt data hlen _ cs cc hidx0 hstop]
      rw [ih (r + 1)]
      simp only [Option.map_some']
      congr 1
      set M := (((new_from_file data).total_rows - (rs + (r : Int)))).toNat with hM
      have hMpos : 0 < M := by omega
      have hM1 : (((new_from_file data).total_rows - (rs + ((r + 1 : Nat) : Int)))).toNat = M - 1 := by
        push_cast
        omega
      have hmin : min (m + 1) M = min m (M - 1) + 1 := by omega
      rw [hM1, hmin, List.range_succ_eq_map, List.map_cons, List.map_map]
      congr 1
      · congr 1
        push_cast
        ring
      · apply List.map_congr_left
        intro k _
        simp only [Function.comp]
        congr 1
        push_cast
        ring

/-- `get_grid_chunk` with a non-negative `row_start` never panics: it returns
exactly `min row_count (total_rows - row_start)` spec-described rows. -/
theorem grid_chunk_spec (data : List Nat) (hlen : data.length ≤ 2 ^ 62) (rs rc cs cc : Int)
    (h0 : 0 ≤ rs) :
    get_grid_chunk (new_from_file data) rs rc cs cc =
      some ((List.range (min rc.toNat (((new_from_file data).total_rows - rs).toNat))).map
        (fun k : Nat => gridRowOf (new_from_file data) (rs + (k : Int)) cs cc)) := by
  have h := gridLoopAux_spec data hlen rs cs cc h0 rc.toNat 0
  rw [get_grid_chunk, h]
  norm_num

/-- The header loop, started at iteration `i`, returns exactly the window of
column names truncated at `total_cols`. -/
theorem headerLoopAux_spec (s : SheetSession) (cs : Int) :
    ∀ (n i : Nat), headerLoopAux s cs n i =
      (List.range (min n ((s.total_cols - (cs + (i : Int))).toNat))).map
        (fun k : Nat => number_to_col_name (cs + (i : Int) + (k : Int))) := by
  intro n
  induction n with
  | zero => intro i; simp [headerLoopAux]
  | succ m ih =>
    intro i
    simp only [headerLoopAux]
    by_cases hstop : s.total_cols ≤ cs + (i : Int)
    · rw [if_pos hstop]
      have hz : ((s.total_cols - (cs + (i : Int)))).toNat = 0 := by omega
      rw [hz]
      simp
    · rw [if_neg hstop]
      push_neg at hstop
      rw [ih (i + 1)]
      set M := ((s.total_cols - (cs + (i : Int)))).toNat with hM
      have hMpos : 0 < M := by omega
      have hM1 : ((s.total_cols - (cs + ((i + 1 : Nat) : Int)))).toNat = M - 1 := by
        push_cast
        omega
      have hmin : min (m + 1) M = min m (M - 1) + 1 := by omega
      rw [hM1, hmin, List.range_succ_eq_map, List.map_cons, List.map_map]
      congr 1
      · congr 1
        push_cast
        ring
      · apply List.map_congr_left
        intro k _
        simp only [Function.comp]
        congr 1
        push_cast
        ring

/-- `get_header_chunk` returns exactly the window of column names for indices
in `[col_start, min (col_start + col_count) total_cols)`. -/
theorem header_chunk_spec (s : SheetSession) (cs cc : Int) :
    get_header_chunk s cs cc =
      (List.range (min cc.toNat ((s.total_cols - cs).toNat))).map
        (fun k : Nat => number_to_col_name (cs + (k : Int))) := by
  have h := headerLoopAux_spec s cs cc.toNat 0
  rw [get_header_chunk, h]
  norm_num

/-- The index carried by a spec-described row is the requested row index, in
both the empty-line and the populated branch. -/
theorem gridRowOf_index (s : SheetSession) (idx cs cc : Int) :
    (gridRowOf s idx cs cc).index = idx := by
  simp only [gridRowOf]
  split_ifs <;> rfl

/-- The row-loop body never reads `total_cols`. -/
theorem gridRow_total_cols (s : SheetSession) (t idx cs cc : Int) :
    gridRow { s with total_cols := t } idx cs cc = gridRow s idx cs cc := rfl

/-- The row loop never reads `total_cols`. -/
theorem gridLoopAux_total_cols (s : SheetSession) (t rs cs cc : Int) :
    ∀ (n r : Nat), gridLoopAux { s with total_cols := t } rs cs cc n r =
      gridLoopAux s rs cs cc n r := by
  intro n
  induction n with
  | zero => intro r; rfl
  | succ m ih =>
    intro r
    simp only [gridLoopAux, ih (r + 1)]
    rfl



/-- The column-name loop is insensitive to the exact fuel as long as the fuel
exceeds `n.toNat`: a non-negative `n` strictly decreases each iteration and a
negative `n` stops after one iteration, so `n.toNat + 1` iterations always
suffice. -/
theorem colNameFuel_congr :
    ∀ (f g : Nat) (n : Int) (acc : List Char), n.toNat < f → n.toNat < g →
      colNameFuel f n acc = colNameFuel g n acc := by
  intro f
  induction f with
  | zero => intro g n acc hf; omega
  | succ fp ih =>
    intro g n acc hf hg
    match g, hg with
    | gp + 1, hg2 =>
      simp only [colNameFuel]
      by_cases hneg : Int.tdiv n 26 - 1 < 0
      · rw [if_pos hneg, if_pos hneg]
      · rw [if_neg hneg, if_neg hneg]
        cases n with
        | negSucc k =>
          have ht : Int.tdiv (Int.negSucc k) 26 = -(((k + 1 : Nat) / 26 : Nat) : Int) := rfl
          rw [ht] at hneg
          omega
        | ofNat m =>
          have ht : Int.tdiv (Int.ofNat m) 26 = ((m / 26 : Nat) : Int) := rfl
          have hco : Int.ofNat m = ((m : Nat) : Int) := rfl
          rw [ht] at hneg ⊢
          rw [hco] at hf hg2
          apply ih
          · omega
          · omega

/-- The source column-name loop computes, for non-negative input, exactly the
naming procedure in the spec's words. -/
theorem colNameFuel_eq_spec :
    ∀ (f : Nat) (m : Nat) (acc : List Char),
      colNameFuel f ((m : Nat) : Int) acc = specColNameFuel f m acc := by
  intro f
  induction f with
  | zero => intro m acc; rfl
  | succ fp ih =>
    intro m acc
    have hc : colChar ((m : Nat) : Int) = Char.ofNat (65 + m % 26) := by
      rw [colChar]
      congr 1
      have h1 : Int.tmod ((m : Nat) : Int) 26 = ((m % 26 : Nat) : Int) := rfl
      rw [h1]
      have h2 : Int.emod ((m % 26 : Nat) : Int) 256 = ((m % 26 : Nat) : Int) :=
        Int.emod_eq_of_lt (by omega) (by omega)
      rw [h2]
      omega
    have ht : Int.tdiv ((m : Nat) : Int) 26 = ((m / 26 : Nat) : Int) := rfl
    simp only [colNameFuel, specColNameFuel, hc, ht]
    by_cases hlt : m < 26
    · have hcond : ((m / 26 : Nat) : Int) - 1 < 0 := by omega
      rw [if_pos hcond, if_pos hlt]
    · have hcond : ¬ (((m / 26 : Nat) : Int) - 1 < 0) := by omega
      rw [if_neg hcond, if_neg hlt]
      have hsub : ((m / 26 : Nat) : Int) - 1 = ((m / 26 - 1 : Nat) : Int) := by omega
      rw [hsub]
      exact ih (m / 26 - 1) _

/-- For every non-negative index the source column namer agrees with the
spec's naming procedure. -/
theorem number_to_col_name_eq_spec (n : Int) (h : 0 ≤ n) :
    number_to_col_name n = specColName n.toNat := by
  obtain ⟨m, rfl⟩ : ∃ m : Nat, n = (m : Int) := ⟨n.toNat, by omega⟩
  rw [number_to_col_name, specColName]
  congr 1
  have htn : ((m : Nat) : Int).toNat = m := by omega
  rw [htn]
  exact colNameFuel_eq_spec (m + 1) m []

/-- A row built for `col_count ≤ 0` carries no cells, in either branch of the
row resolution. -/
theorem gridRowOf_cells_of_nonpos (s : SheetSession) (idx cs cc : Int) (h : cc ≤ 0) :
    (gridRowOf s idx cs cc).cells = [] := by
  have h0 : cc.toNat = 0 := by omega
  simp only [gridRowOf]
  split_ifs <;> simp [cellsOf, h0]

/-- The session never takes the `total_rows = 0` branch of the column
estimate: `total_cols` is always the comma count of row 0 plus one. -/
theorem total_cols_eq (data : List Nat) (hlen : data.length ≤ 2 ^ 62) :
    (new_from_file data).total_cols =
      byte_count_char (data.take ((new_from_file data).row_offsets.getD 1 data.length)) 44 + 1 := by
  have hpos : 0 < (new_from_file data).total_rows := by
    rw [total_rows_eq data hlen]
    have := row_offsets_length_bounds data
    omega
  have hpos2 : 0 < usize_as_i64 (0 :: scanNewlines data 0).length := hpos
  show (if 0 < usize_as_i64 (0 :: scanNewlines data 0).length then
      byte_count_char (data.take ((0 :: scanNewlines data 0).getD 1 data.length)) 44 + 1
      else 0) = _
  rw [if_pos hpos2]
  rfl

/-- The comma count of a slice short enough for the `as i64` cast not to wrap
is non-negative. -/
theorem byte_count_char_nonneg (slice : List Nat) (t : Nat) (h : slice.length < 2 ^ 63) :
    0 ≤ byte_count_char slice t := by
  rw [byte_count_char, usize_as_i64]
  have hle := List.length_filter_le (fun b => b = t) slice
  rw [if_pos (by omega)]
  positivity

/-- C10: every session built by `new_from_file` satisfies `total_rows ≥ 1`
and `total_cols ≥ 1`, including for a zero-length file, because offset 0 is
recorded unconditionally before scanning and the column estimate adds one to
the comma count of row 0; the `total_rows = 0` branch of the column-count
computation is unreachable. -/
theorem c10_construction_invariant (data : List Nat) (hlen : data.length ≤ 2 ^ 62) :
    1 ≤ (new_from_file data).total_rows ∧
      (new_from_file data).total_cols =
        byte_count_char (data.take ((new_from_file data).row_offsets.getD 1 data.length)) 44 + 1 ∧
      1 ≤ (new_from_file data).total_cols := by
  have h1 : 1 ≤ (new_from_file data).total_rows := by
    rw [total_rows_eq data hlen]
    have := row_offsets_length_bounds data
    omega
  have h2 := total_cols_eq data hlen
  refine ⟨h1, h2, ?_⟩
  rw [h2]
  have hsl : (data.take ((new_from_file data).row_offsets.getD 1 data.length)).length < 2 ^ 63 := by
    rw [List.length_take]
    omega
  have := byte_count_char_nonneg (data.take ((new_from_file data).row_offsets.getD 1 data.length)) 44 hsl
  omega

/-- Witness for C10 at the empty file. -/
theorem c10_witness :
    (List.length ([] : List Nat) ≤ 2 ^ 62) ∧
      (1 ≤ (new_from_file []).total_rows ∧
        (new_from_file []).total_cols =
          byte_count_char (([] : List Nat).take ((new_from_file []).row_offsets.getD 1
            (List.length ([] : List Nat)))) 44 + 1 ∧
        1 ≤ (new_from_file []).total_cols) :=
  ⟨by decide, c10_construction_invariant [] (by decide)⟩

/-- C6: the line index is strictly increasing, starts with offset 0, has
length `total_rows`, and records position `i + 1` for every line-feed byte at
position `i` of the mapping. -/
theorem c6_line_index (data : List Nat) (hlen : data.length ≤ 2 ^ 62) :
    List.Pairwise (· < ·) (new_from_file data).row_offsets ∧
      (new_from_file data).row_offsets.head? = some 0 ∧
      (new_from_file data).total_rows = ((new_from_file data).row_offsets.length : Int) ∧
      ∀ i : Nat, data.get? i = some 10 → (i + 1) ∈ (new_from_file data).row_offsets := by
  refine ⟨?_, rfl, total_rows_eq data hlen, ?_⟩
  · rw [new_row_offsets]
    apply List.chain'_iff_pairwise.mp
    refine List.chain'_cons'.mpr ⟨?_, scanNewlines_chain data 0⟩
    intro y hy
    exact (scanNewlines_mem_bounds data 0 y (List.mem_of_mem_head? hy)).1
  · intro i hi
    rw [new_row_offsets]
    have hmem : (i + 1) ∈ scanNewlines data 0 := by
      have := scanNewlines_mem_of_newline data 0 i hi
      simpa using this
    exact List.mem_cons_of_mem 0 hmem

/-- Witness for C6 at the one-byte file consisting of a single line feed. -/
theorem c6_witness :
    List.Pairwise (· < ·) (new_from_file [10]).row_offsets ∧
      (0 + 1) ∈ (new_from_file [10]).row_offsets :=
  ⟨(c6_line_index [10] (by decide)).1, (c6_line_index [10] (by decide)).2.2.2 0 (by decide)⟩

/-- C5: the column namer implements bijective base-26 exactly as the spec
describes it (prepend the letter at code `'A' + (n mod 26)`, replace `n` by
`n / 26 - 1`, stop when `n < 0`), and takes the documented values. -/
theorem c5_column_namer :
    (∀ n : Int, 0 ≤ n → number_to_col_name n = specColName n.toNat) ∧
      number_to_col_name 0 = "A" ∧ number_to_col_name 25 = "Z" ∧
      number_to_col_name 26 = "AA" ∧ number_to_col_name 701 = "ZZ" ∧
      number_to_col_name 702 = "AAA" := by
  refine ⟨number_to_col_name_eq_spec, ?_, ?_, ?_, ?_, ?_⟩ <;> decide

/-- Witness for C5 at `n = 27`. -/
theorem c5_witness : number_to_col_name 27 = specColName (27 : Int).toNat :=
  c5_column_namer.1 27 (by decide)

/-- C2 counterexample: for the file content `"a,b,c\n1,2,3\n4,5\n"` the
session reports `total_rows = 4`, not 3 — the trailing line feed records a
fourth row start at offset 16. -/
theorem c2_counterexample :
    (new_from_file exampleData).total_rows = 4 ∧
      (new_from_file exampleData).total_rows ≠ 3 := by decide

/-- C2 amended: for the file content `"a,b,c\n1,2,3\n4,5\n"`,
`total_rows = 4` (the trailing line feed opens a final empty row),
`total_cols = 3`, and `get_grid_chunk(0,3,0,3)` returns exactly the three
claimed rows. -/
theorem c2_example_file :
    (new_from_file exampleData).total_rows = 4 ∧
      (new_from_file exampleData).total_cols = 3 ∧
      get_grid_chunk (new_from_file exampleData) 0 3 0 3 =
        some [⟨0, [⟨"a"⟩, ⟨"b"⟩, ⟨"c"⟩]⟩, ⟨1, [⟨"1"⟩, ⟨"2"⟩, ⟨"3"⟩]⟩,
          ⟨2, [⟨"4"⟩, ⟨"5"⟩, ⟨""⟩]⟩] := by decide

/-- C1 counterexample: for a zero-length file the session reports
`total_rows = 1` and `total_cols = 1` (not 0), and both query operations can
return non-empty sequences. -/
theorem c1_counterexample :
    (new_from_file []).total_rows = 1 ∧ (new_from_file []).total_rows ≠ 0 ∧
      (new_from_file []).total_cols = 1 ∧
      get_grid_chunk (new_from_file []) 0 1 0 1 = some [⟨0, []⟩] ∧
      get_header_chunk (new_from_file []) 0 1 = ["A"] := by decide

/-- C1 amended: for a zero-length file, `total_rows = 1` and
`total_cols = 1`; for non-negative start arguments `get_grid_chunk` returns
the single cell-less row `{0, []}` exactly when `row_start = 0 ∧ row_count ≥ 1`
(else the empty sequence), and `get_header_chunk` returns `["A"]` exactly when
`col_start = 0 ∧ col_count ≥ 1` (else the empty sequence). -/
theorem c1_empty_file (rs rc cs cc : Int) (hrs : 0 ≤ rs) (hcs : 0 ≤ cs) :
    (new_from_file []).total_rows = 1 ∧ (new_from_file []).total_cols = 1 ∧
      get_grid_chunk (new_from_file []) rs rc cs cc =
        some (if rs = 0 ∧ 1 ≤ rc then [⟨0, []⟩] else []) ∧
      get_header_chunk (new_from_file []) cs cc =
        (if cs = 0 ∧ 1 ≤ cc then ["A"] else []) := by
  have hrows : (new_from_file ([] : List Nat)).total_rows = 1 := by decide
  have hcols : (new_from_file ([] : List Nat)).total_cols = 1 := by decide
  refine ⟨hrows, hcols, ?_, ?_⟩
  · rw [grid_chunk_spec [] (by decide) rs rc cs cc hrs, hrows]
    by_cases h : rs = 0 ∧ 1 ≤ rc
    · obtain ⟨h1, h2⟩ := h
      subst h1
      have hmin : min rc.toNat ((1 - (0 : Int)).toNat) = 1 := by omega
      rw [hmin, if_pos ⟨rfl, h2⟩]
      rfl
    · have hmin : min rc.toNat ((1 - rs).toNat) = 0 := by
        rcases not_and_or.mp h with h1 | h2
        · have : 1 ≤ rs := by omega
          omega
        · omega
      rw [hmin, if_neg h]
      rfl
  · rw [header_chunk_spec, hcols]
    by_cases h : cs = 0 ∧ 1 ≤ cc
    · obtain ⟨h1, h2⟩ := h
      subst h1
      have hmin : min cc.toNat ((1 - (0 : Int)).toNat) = 1 := by omega
      rw [hmin, if_pos ⟨rfl, h2⟩]
      decide
    · have hmin : min cc.toNat ((1 - cs).toNat) = 0 := by
        rcases not_and_or.mp h with h1 | h2
        · have : 1 ≤ cs := by omega
          omega
        · omega
      rw [hmin, if_neg h]
      rfl

/-- Witness for C1 at `row_start = 0`, `row_count = 2`. -/
theorem c1_witness :
    get_grid_chunk (new_from_file []) 0 2 0 3 =
      some (if (0 : Int) = 0 ∧ (1 : Int) ≤ 2 then [⟨0, []⟩] else []) :=
  (c1_empty_file 0 2 0 3 (by decide) (by decide)).2.2.1

/-- C3 counterexample: a negative `row_start` drives the line-index access
out of bounds — a panic, modelled as `none` — and a positive `row_count` with
`col_count ≤ 0` yields a non-empty sequence of cell-less rows rather than an
empty result. -/
theorem c3_counterexample :
    get_grid_chunk (new_from_file []) (-1) 1 0 1 = none ∧
      get_grid_chunk (new_from_file [97, 10]) 0 1 0 0 = some [⟨0, []⟩] := by decide

/-- C3 amended: after a successful open, `get_header_chunk` always returns
normally and `get_grid_chunk` returns normally for every non-negative
`row_start`, whatever the remaining arguments; `row_count ≤ 0` yields an
empty grid sequence, `col_count ≤ 0` yields an empty header sequence and
cell-less grid rows; out-of-range large start values are absorbed by
truncation, but a negative `row_start` causes an out-of-bounds access. -/
theorem c3_no_failure (data : List Nat) (hlen : data.length ≤ 2 ^ 62)
    (rs rc cs cc : Int) (hrs : 0 ≤ rs) :
    (∃ l, get_grid_chunk (new_from_file data) rs rc cs cc = some l ∧
        (rc ≤ 0 → l = []) ∧ ∀ rd ∈ l, cc ≤ 0 → rd.cells = []) ∧
      (cc ≤ 0 → get_header_chunk (new_from_file data) cs cc = []) := by
  constructor
  · refine ⟨_, grid_chunk_spec data hlen rs rc cs cc hrs, ?_, ?_⟩
    · intro hrc
      have hz : rc.toNat = 0 := by omega
      rw [hz]
      simp
    · intro rd hrd hcc
      simp only [List.mem_map] at hrd
      obtain ⟨k, _, hk⟩ := hrd
      rw [← hk]
      exact gridRowOf_cells_of_nonpos _ _ _ _ hcc
  · intro hcc
    rw [header_chunk_spec]
    have hz : cc.toNat = 0 := by omega
    rw [hz]
    simp

/-- Witness for C3 with degenerate counts. -/
theorem c3_witness :
    (∃ l, get_grid_chunk (new_from_file [97, 10]) 5 (-2) 7 (-3) = some l ∧
        ((-2 : Int) ≤ 0 → l = []) ∧ ∀ rd ∈ l, (-3 : Int) ≤ 0 → rd.cells = []) ∧
      ((-3 : Int) ≤ 0 → get_header_chunk (new_from_file [97, 10]) 7 (-3) = []) :=
  c3_no_failure [97, 10] (by decide) 5 (-2) 7 (-3) (by decide)

/-- C4 counterexample: with `row_start = 2`, `row_count = 0` on a one-row
(empty) file, the chunk returns exactly `row_count` rows — not fewer — even
though `row_start + row_count > total_rows`, so the claimed equivalence fails
at this input. -/
theorem c4_counterexample :
    get_grid_chunk (new_from_file []) 2 0 0 1 = some [] ∧
      (new_from_file []).total_rows < 2 + 0 ∧
      ¬ ((List.length ([] : List RowData) < (0 : Int).toNat) ↔
          ((new_from_file []).total_rows < 2 + 0)) := by decide

/-- C4 amended: for `row_start ≥ 0` and `row_count ≥ 0`, `get_grid_chunk`
returns at most `row_count` rows; it returns fewer than `row_count` exactly
when `row_count > 0` and `row_start + row_count > total_rows`; and whenever
`row_start + row_count > total_rows` the returned rows are precisely those
with indices in `[row_start, total_rows)`. -/
theorem c4_truncation (data : List Nat) (hlen : data.length ≤ 2 ^ 62)
    (rs rc cs cc : Int) (hrs : 0 ≤ rs) (hrc : 0 ≤ rc) :
    ∃ l, get_grid_chunk (new_from_file data) rs rc cs cc = some l ∧
      (l.length : Int) ≤ rc ∧
      ((l.length : Int) < rc ↔ (0 < rc ∧ (new_from_file data).total_rows < rs + rc)) ∧
      ((new_from_file data).total_rows < rs + rc →
        l.map RowData.index =
          (List.range ((new_from_file data).total_rows - rs).toNat).map
            (fun k : Nat => rs + (k : Int))) := by
  refine ⟨_, grid_chunk_spec data hlen rs rc cs cc hrs, ?_, ?_, ?_⟩
  · simp only [List.length_map, List.length_range]
    omega
  · simp only [List.length_map, List.length_range]
    omega
  · intro hlt
    simp only [List.map_map]
    have hmin : min rc.toNat ((new_from_file data).total_rows - rs).toNat =
        ((new_from_file data).total_rows - rs).toNat := by omega
    rw [hmin]
    apply List.map_congr_left
    intro k _
    simp only [Function.comp_apply]
    exact gridRowOf_index _ _ _ _

/-- Witness for C4 on the file `"a\n"` with a window extending past the end. -/
theorem c4_witness :
    ∃ l, get_grid_chunk (new_from_file [97, 10]) 1 5 0 1 = some l ∧
      (l.length : Int) ≤ 5 ∧
      ((l.length : Int) < 5 ↔ (0 < (5 : Int) ∧ (new_from_file [97, 10]).total_rows < 1 + 5)) ∧
      ((new_from_file [97, 10]).total_rows < 1 + 5 →
        l.map RowData.index =
          (List.range ((new_from_file [97, 10]).total_rows - 1).toNat).map
            (fun k : Nat => 1 + (k : Int))) :=
  c4_truncation [97, 10] (by decide) 1 5 0 1 (by decide) (by decide)

/-- C7: the two query operations bound columns asymmetrically —
`get_header_chunk` stops short at `total_cols` (its length is exactly the
window clipped there), while `get_grid_chunk` never reads `total_cols` at
all (its result is invariant under replacing `total_cols` by anything), so a
ragged row still yields real field values at column indices at or beyond
`total_cols`, as the concrete ragged file shows. -/
theorem c7_column_bounding :
    (∀ (s : SheetSession) (cs cc : Int),
        (get_header_chunk s cs cc).length = min cc.toNat ((s.total_cols - cs).toNat) ∧
          get_header_chunk s cs cc =
            (List.range (min cc.toNat ((s.total_cols - cs).toNat))).map
              (fun k : Nat => number_to_col_name (cs + (k : Int)))) ∧
      (∀ (s : SheetSession) (t rs rc cs cc : Int),
        get_grid_chunk { s with total_cols := t } rs rc cs cc =
          get_grid_chunk s rs rc cs cc) ∧
      ((new_from_file raggedData).total_cols = 1 ∧
        get_grid_chunk (new_from_file raggedData) 1 1 0 3 =
          some [⟨1, [⟨"b"⟩, ⟨"c"⟩, ⟨"d"⟩]⟩] ∧
        get_header_chunk (new_from_file raggedData) 0 3 = ["A"]) := by
  refine ⟨?_, ?_, by decide⟩
  · intro s cs cc
    refine ⟨?_, header_chunk_spec s cs cc⟩
    rw [header_chunk_spec s cs cc]
    simp
  · intro s t rs rc cs cc
    rw [get_grid_chunk, get_grid_chunk, gridLoopAux_total_cols]

/-- C8: for every in-range row the grid chunk resolves byte ranges exactly as
specified — `start_byte = LineIndex[row_idx]`, `end_byte = LineIndex[row_idx+1] - 1`
when a next entry exists else the mapping length — and whenever
`start_byte ≥ end_byte` it emits a cell-less `RowData` for that index
regardless of `col_count`. -/
theorem c8_row_byte_ranges (data : List Nat) (hlen : data.length ≤ 2 ^ 62)
    (rs rc cs cc : Int) (hrs : 0 ≤ rs) :
    get_grid_chunk (new_from_file data) rs rc cs cc =
      some ((List.range (min rc.toNat ((new_from_file data).total_rows - rs).toNat)).map
        (fun k : Nat => gridRowOf (new_from_file data) (rs + (k : Int)) cs cc)) ∧
      (∀ (idx cc1 cc2 : Int),
        row_start_byte (new_from_file data) idx ≥ row_end_byte (new_from_file data) idx →
          gridRowOf (new_from_file data) idx cs cc1 = { index := idx, cells := [] } ∧
          gridRowOf (new_from_file data) idx cs cc2 = { index := idx, cells := [] }) := by
  refine ⟨grid_chunk_spec data hlen rs rc cs cc hrs, ?_⟩
  intro idx cc1 cc2 hge
  constructor <;> (simp only [gridRowOf]; rw [if_pos hge])

/-- Witness for C8 on the example file. -/
theorem c8_witness :
    get_grid_chunk (new_from_file exampleData) 0 4 0 3 =
      some ((List.range (min (4 : Int).toNat
          ((new_from_file exampleData).total_rows - 0).toNat)).map
        (fun k : Nat => gridRowOf (new_from_file exampleData) (0 + (k : Int)) 0 3)) :=
  (c8_row_byte_ranges exampleData (by decide) 0 4 0 3 (by decide)).1

/-- C9: the two query operations are pure and deterministic: no sequence of
queries changes the session state, and the answer to a query after any query
history equals the answer to the same query on the fresh session. -/
theorem c9_query_purity (s : SheetSession) (qs : List Query) (q : Query) :
    runQueries s qs = s ∧ (runQuery s q).1 = s ∧
      (runQuery (runQueries s qs) q).2 = (runQuery s q).2 := by
  have hstate : ∀ (qs2 : List Query) (s2 : SheetSession), runQueries s2 qs2 = s2 := by
    intro qs2
    induction qs2 with
    | nil => intro s2; rfl
    | cons p ps ih =>
      intro s2
      show runQueries (runQuery s2 p).1 ps = s2
      have h1 : (runQuery s2 p).1 = s2 := by cases p <;> rfl
      rw [h1]
      exact ih s2
  refine ⟨hstate qs s, by cases q <;> rfl, by rw [hstate qs s]⟩

end TurboSheet
